import Mathlib

/-!
Verification development for the ai-answering-service repository.

The conversation session manager lives in src/backend/conversation_relay.js:
a ConversationManager class (per-session conversation histories, call-summary
generation, delayed teardown) driven by a WebSocket message handler (events
connected / start / media / interim-transcription / transcription / stop, plus
the socket close callback).  The dashboard search endpoint lives in the Flask
application of src/backend-setup.md (search_calls).

The JavaScript is embedded shallowly:

* A conversation history is a list of role/content messages; the manager's two
  Maps become association lists keyed by the (possibly null) session id.
* The asynchronous handler is a small-step machine: the "transcription" event
  performs the synchronous half of processUserMessage (history creation and
  the caller-turn push happen before the first await in the source) and records
  an in-flight dispatch; a separate resolveDispatch event delivers the awaited
  outcome (reasoning collaborator success or failure, speech synthesis success
  or failure) and performs the rest of the source's control flow.
* setTimeout is modelled with an explicit clock and timer queues: the stop
  handler's 1000 ms summary task and endConversation's 30000 ms history
  deletion become scheduled entries fired by dedicated events whose guard
  checks that the scheduled instant has been reached.
* External collaborators are oracles carried by the events: the reasoning
  collaborator's reply (or failure) and the speech synthesiser's success flag.
  Speech synthesis for the greeting and for the fallback error utterance is
  modelled as succeeding; emitted utterance texts are recorded in order.
* The host JSON.parse is modelled by an executable strict-JSON recogniser
  (jsonParse below) returning none where JSON.parse throws.
-/

namespace AIAnswering

/-- One entry of a conversation history: the role/content objects pushed by
`ConversationManager.processUserMessage`. -/
structure Msg where
  role : String
  content : String
deriving Repr, DecidableEq

/-- The SYSTEM_PROMPT constant of conversation_relay.js (lines 24-55); its prose
is reproduced in abbreviated form, only its identity as the seed message of
every history matters to the properties below. -/
def SYSTEM_PROMPT : String :=
  "You are a professional AI secretary for Austin Kidwell's businesses: ASR Inc (Systems Integration) and Intellegix (Construction Business Intelligence SaaS). You handle phone calls with the professionalism of an experienced executive assistant."

/-- The message seeded at position 0 of a fresh history (lines 66-71). -/
def systemMsg : Msg := ⟨"system", SYSTEM_PROMPT⟩

/-- The greeting sent on the start event (line 247). -/
def greeting : String :=
  "Hello! Thank you for calling ASR Inc and Intellegix. This is Austin's AI assistant. How can I help you today?"

/-- The utterance returned by processUserMessage's catch block (line 107) when
the reasoning collaborator errors or times out. -/
def processFailureReply : String :=
  "I apologize, but I'm having trouble processing your request. Could you please repeat that?"

/-- The errorResponse constant of the transcription case's catch block
(line 306), spoken when speech synthesis of the reply throws. -/
def errorResponse : String :=
  "I'm sorry, I didn't catch that. Could you please repeat your question?"

/-- The whitespace set of JS String.prototype.trim, restricted to its ASCII
part (space, tab, line feed, carriage return, vertical tab, form feed); the
non-ASCII WhiteSpace code points are not modelled. -/
def jsWhitespace (c : Char) : Bool :=
  c = ' ' || c = '\t' || c = '\n' || c = '\r' ||
    c = Char.ofNat 11 || c = Char.ofNat 12

/-- Model of JS String.prototype.trim: strip leading and trailing
whitespace. -/
def jsTrim (s : String) : String :=
  String.mk (((s.data.dropWhile jsWhitespace).reverse.dropWhile
    jsWhitespace).reverse)

/-- Model of JS String.prototype.substring(0, n): the first n characters. -/
def jsSubstringTo (s : String) (n : Nat) : String :=
  String.mk (s.data.take n)

/-- A key of the manager's Maps: the connection's sessionId variable starts as
null and becomes the streamSid on the start event, so keys are optional
strings. -/
abbrev SessKey := Option String

/-- Map.get on an association list. -/
def assocGet {β : Type} : List (SessKey × β) → SessKey → Option β
  | [], _ => none
  | (k, v) :: rest, sid => if k = sid then some v else assocGet rest sid

/-- Map.set on an association list (replaces the existing binding, else
appends). -/
def assocSet {β : Type} : List (SessKey × β) → SessKey → β → List (SessKey × β)
  | [], sid, v => [(sid, v)]
  | (k, w) :: rest, sid, v =>
    if k = sid then (sid, v) :: rest else (k, w) :: assocSet rest sid v

/-- Map.delete on an association list. -/
def assocDelete {β : Type} : List (SessKey × β) → SessKey → List (SessKey × β)
  | [], _ => []
  | (k, v) :: rest, sid =>
    if k = sid then assocDelete rest sid else (k, v) :: assocDelete rest sid

/-- Lines 98-101 of processUserMessage: `history.splice(1, 2)` when
`history.length > 21` — keep the system message, drop the oldest
user/assistant pair. -/
def trimHistory (h : List Msg) : List Msg :=
  if h.length > 21 then h.take 1 ++ h.drop 3 else h

/-- The synchronous part of processUserMessage (lines 66-79), executed before
the first await: create the history seeded with the system message when the
session has none, then push the caller turn. -/
def pumPushUser (hists : List (SessKey × List Msg)) (sid : SessKey)
    (userMessage : String) : List (SessKey × List Msg) :=
  let h := (assocGet hists sid).getD [systemMsg]
  assocSet hists sid (h ++ [⟨"user", userMessage⟩])

/-- The success continuation of processUserMessage (lines 90-103): push the
assistant turn and trim.  When the map no longer holds the session (deleted
while the request was in flight) the source pushes onto an array no longer
reachable from the map, so the map is unchanged. -/
def pumPushAssistant (hists : List (SessKey × List Msg)) (sid : SessKey)
    (reply : String) : List (SessKey × List Msg) :=
  match assocGet hists sid with
  | none => hists
  | some h => assocSet hists sid (trimHistory (h ++ [⟨"assistant", reply⟩]))

/-- One line of the transcript built by getConversationSummary
(lines 135-137). -/
def msgLine (m : Msg) : String :=
  (if m.role = "user" then "Caller" else "Assistant") ++ ": " ++ m.content

/-- The `.map(...).join(newline)` of getConversationSummary. -/
def joinTranscript (ms : List Msg) : String :=
  String.intercalate "\n" (ms.map msgLine)

/-- The value getConversationSummary returns when the history is non-trivial. -/
structure ConversationData where
  transcript : String
  messageCount : Nat
deriving Repr, DecidableEq

/-- ConversationManager.getConversationSummary (lines 128-143): null when the
session has no history or only the system message, else the formatted
transcript of everything past the system message. -/
def getConversationSummary (hists : List (SessKey × List Msg)) (sid : SessKey) :
    Option ConversationData :=
  match assocGet hists sid with
  | none => none
  | some h =>
    if h.length ≤ 1 then none
    else some ⟨joinTranscript (h.drop 1), h.length - 1⟩

/-- A JSON parse tree; numbers keep their source lexeme (only parse success or
failure is observable in the embedded code). -/
inductive Json where
  | jnull
  | jbool (b : Bool)
  | jnum (lexeme : String)
  | jstr (s : String)
  | jarr (elems : List Json)
  | jobj (fields : List (String × Json))

/-- JSON insignificant whitespace. -/
def isJsonWs (c : Char) : Bool :=
  c == ' ' || c == '\t' || c == '\n' || c == '\r'

def skipWs (cs : List Char) : List Char := cs.dropWhile isJsonWs

/-- Value of a hexadecimal digit. -/
def hexVal (c : Char) : Option Nat :=
  if '0' ≤ c ∧ c ≤ '9' then some (c.toNat - '0'.toNat)
  else if 'a' ≤ c ∧ c ≤ 'f' then some (c.toNat - 'a'.toNat + 10)
  else if 'A' ≤ c ∧ c ≤ 'F' then some (c.toNat - 'A'.toNat + 10)
  else none

/-- Single-character JSON string escapes. -/
def escChar (e : Char) : Option Char :=
  if e = '"' then some '"'
  else if e = '\\' then some '\\'
  else if e = '/' then some '/'
  else if e = 'b' then some (Char.ofNat 8)
  else if e = 'f' then some (Char.ofNat 12)
  else if e = 'n' then some '\n'
  else if e = 'r' then some '\r'
  else if e = 't' then some '\t'
  else none

/-- A JSON string body, after the opening quote, up to and including the
closing quote. -/
def parseStringBody : Nat → List Char → Option (String × List Char)
  | 0, _ => none
  | fuel + 1, cs =>
    match cs with
    | [] => none
    | '"' :: rest => some ("", rest)
    | '\\' :: 'u' :: a :: b :: c :: d :: rest =>
      match hexVal a, hexVal b, hexVal c, hexVal d with
      | some ha, some hb, some hc, some hd =>
        let code := ((ha * 16 + hb) * 16 + hc) * 16 + hd
        (parseStringBody fuel rest).map
          (fun p => (String.mk (Char.ofNat code :: p.1.data), p.2))
      | _, _, _, _ => none
    | '\\' :: e :: rest =>
      match escChar e with
      | some ch =>
        (parseStringBody fuel rest).map
          (fun p => (String.mk (ch :: p.1.data), p.2))
      | none => none
    | ch :: rest =>
      if ch.toNat < 32 then none
      else
        (parseStringBody fuel rest).map
          (fun p => (String.mk (ch :: p.1.data), p.2))

/-- The integer part of a JSON number: 0, or a nonzero digit followed by
digits. -/
def parseIntPart : List Char → Option (List Char × List Char)
  | [] => none
  | '0' :: r => some (['0'], r)
  | c :: r =>
    if c.isDigit then some (c :: r.takeWhile Char.isDigit, r.dropWhile Char.isDigit)
    else none

/-- The optional fraction part of a JSON number. -/
def parseFracPart : List Char → Option (List Char × List Char)
  | '.' :: r =>
    let ds := r.takeWhile Char.isDigit
    if ds = [] then none else some ('.' :: ds, r.dropWhile Char.isDigit)
  | cs => some ([], cs)

/-- The optional exponent part of a JSON number. -/
def parseExpPart : List Char → Option (List Char × List Char)
  | [] => some ([], [])
  | c :: r =>
    if c = 'e' ∨ c = 'E' then
      let sr : List Char × List Char :=
        match r with
        | '+' :: rr => (['+'], rr)
        | '-' :: rr => (['-'], rr)
        | _ => ([], r)
      let ds := sr.2.takeWhile Char.isDigit
      if ds = [] then none
      else some (c :: sr.1 ++ ds, sr.2.dropWhile Char.isDigit)
    else some ([], c :: r)

/-- A JSON number; returns its lexeme. -/
def parseNumber (cs : List Char) : Option (String × List Char) :=
  let nr : List Char × List Char :=
    match cs with
    | '-' :: r => (['-'], r)
    | _ => ([], cs)
  match parseIntPart nr.2 with
  | none => none
  | some (ip, cs2) =>
    match parseFracPart cs2 with
    | none => none
    | some (fp, cs3) =>
      match parseExpPart cs3 with
      | none => none
      | some (ep, cs4) => some (String.mk (nr.1 ++ ip ++ fp ++ ep), cs4)

mutual

/-- One JSON value, leading whitespace allowed. -/
def parseValue : Nat → List Char → Option (Json × List Char)
  | 0, _ => none
  | fuel + 1, cs =>
    match skipWs cs with
    | 'n' :: 'u' :: 'l' :: 'l' :: rest => some (Json.jnull, rest)
    | 't' :: 'r' :: 'u' :: 'e' :: rest => some (Json.jbool true, rest)
    | 'f' :: 'a' :: 'l' :: 's' :: 'e' :: rest => some (Json.jbool false, rest)
    | '"' :: rest =>
      (parseStringBody (rest.length + 1) rest).map (fun p => (Json.jstr p.1, p.2))
    | '[' :: rest =>
      (match skipWs rest with
       | ']' :: rest2 => some (Json.jarr [], rest2)
       | _ =>
         match parseValue fuel rest with
         | none => none
         | some (v, cs3) =>
           match parseArrayTail fuel cs3 with
           | none => none
           | some (vs, cs4) => some (Json.jarr (v :: vs), cs4))
    | '{' :: rest =>
      (match skipWs rest with
       | '}' :: rest2 => some (Json.jobj [], rest2)
       | _ =>
         match parseMember fuel rest with
         | none => none
         | some (kv, cs3) =>
           match parseObjectTail fuel cs3 with
           | none => none
           | some (kvs, cs4) => some (Json.jobj (kv :: kvs), cs4))
    | cs2 => (parseNumber cs2).map (fun p => (Json.jnum p.1, p.2))

/-- After a value inside an array: comma-separated further values up to the
closing bracket. -/
def parseArrayTail : Nat → List Char → Option (List Json × List Char)
  | 0, _ => none
  | fuel + 1, cs =>
    match skipWs cs with
    | ']' :: rest => some ([], rest)
    | ',' :: rest =>
      (match parseValue fuel rest with
       | none => none
       | some (v, cs2) =>
         match parseArrayTail fuel cs2 with
         | none => none
         | some (vs, cs3) => some (v :: vs, cs3))
    | _ => none

/-- One key/value member of an object. -/
def parseMember : Nat → List Char → Option ((String × Json) × List Char)
  | 0, _ => none
  | fuel + 1, cs =>
    match skipWs cs with
    | '"' :: rest =>
      (match parseStringBody (rest.length + 1) rest with
       | none => none
       | some (k, cs2) =>
         match skipWs cs2 with
         | ':' :: cs3 =>
           (match parseValue fuel cs3 with
            | none => none
            | some (v, cs4) => some ((k, v), cs4))
         | _ => none)
    | _ => none

/-- After a member inside an object: comma-separated further members up to the
closing brace. -/
def parseObjectTail : Nat → List Char → Option (List (String × Json) × List Char)
  | 0, _ => none
  | fuel + 1, cs =>
    match skipWs cs with
    | '}' :: rest => some ([], rest)
    | ',' :: rest =>
      (match parseMember fuel rest with
       | none => none
       | some (kv, cs2) =>
         match parseObjectTail fuel cs2 with
         | none => none
         | some (kvs, cs3) => some (kv :: kvs, cs3))
    | _ => none

end

/-- Model of the host JSON.parse: the whole string must be one JSON value plus
whitespace; none where JSON.parse throws.  (Nesting depth is bounded by the
string length, so the length suffices as fuel.) -/
def jsonParse (s : String) : Option Json :=
  match parseValue (s.length + 1) s.data with
  | none => none
  | some (v, rest) => if skipWs rest = [] then some v else none

/-- The greedy regex match of generateCallSummary line 177 (an opening brace,
any characters, a closing brace): the substring from the first opening brace
to the last closing brace, when such a pair exists. -/
def braceMatch (s : String) : Option String :=
  let cs := s.data
  match cs.findIdx? (· = '{') with
  | none => none
  | some i =>
    match cs.reverse.findIdx? (· = '}') with
    | none => none
    | some rj =>
      let j := cs.length - 1 - rj
      if i ≤ j then some (String.mk ((cs.drop i).take (j + 1 - i))) else none

/-- Outcome of the reasoning collaborator's summary-extraction request
(lines 164-174): the response text, or a thrown error/timeout. -/
inductive SummaryCollabResult where
  | ok (text : String)
  | err
deriving Repr, DecidableEq

/-- Value of a produced call summary: the parsed JSON from the collaborator, or
the fallback object of lines 182-187. -/
inductive CallSummary where
  | parsed (j : Json)
  | fallback (caller_intent summary : String) (action_items : List String)

/-- The caller_intent of the fallback summary object (line 183). -/
def fallbackIntent : String := "Call summary generation failed"

/-- ConversationManager.generateCallSummary (lines 145-193).  Null when the
session has no non-trivial history; null when the collaborator request throws;
on a response, the first-to-last brace substring is extracted and JSON.parsed
(a throwing parse is caught by the same catch block, yielding null); with no
brace match the deterministic fallback object is returned. -/
def generateCallSummary (hists : List (SessKey × List Msg)) (sid : SessKey)
    (collab : SummaryCollabResult) : Option CallSummary :=
  match getConversationSummary hists sid with
  | none => none
  | some cd =>
    match collab with
    | .err => none
    | .ok summaryText =>
      match braceMatch summaryText with
      | some m =>
        match jsonParse m with
        | some j => some (.parsed j)
        | none => none
      | none =>
        some (.fallback fallbackIntent
          (jsSubstringTo cd.transcript 200 ++ "...") [])

/-- Outcome of the awaited round started by a transcription dispatch: the
reasoning collaborator's reply or thrown error, and whether the subsequent
speech synthesis of the utterance succeeded (a failing synthesis throws into
the catch block of lines 302-315, which then speaks errorResponse; that second
synthesis is modelled as succeeding). -/
inductive DispatchOutcome where
  | claudeOk (reply : String) (ttsOk : Bool)
  | claudeErr (ttsOk : Bool)
deriving Repr, DecidableEq

/-- The state of one WebSocket connection (one call) together with the shared
ConversationManager, the clock and the setTimeout queues:

* sessionId, conversationBuffer, isProcessing — the handler's local variables
  (lines 229-231);
* pendingDispatch — the dispatch currently awaited inside the transcription
  case, as (session key, caller message); a list so that "at most one in
  flight" is a proved invariant rather than a typing assumption;
* conversations, conversationHistory — the manager's two Maps (the source
  never inserts into conversations, it only deletes from it);
* now, summaryTimers, histDelTimers — the clock (ms) and the pending
  setTimeout callbacks of the stop handler and of endConversation;
* emitted — utterance texts synthesized and sent as media frames, in order;
* callRecords — the Call Records persisted from produced summaries.  Modelled
  from the spec: the stop handler only logs the summary, with a comment saying
  it would be sent to the Flask API to create the call-log row; producing a
  record is identified with the summary being non-null. -/
structure RelayState where
  sessionId : SessKey
  conversationBuffer : String
  isProcessing : Bool
  pendingDispatch : List (SessKey × String)
  conversations : List SessKey
  conversationHistory : List (SessKey × List Msg)
  now : Nat
  summaryTimers : List (String × Nat)
  histDelTimers : List (String × Nat)
  emitted : List String
  callRecords : List CallSummary

/-- A fresh connection (lines 229-231) over a fresh manager at time zero. -/
def initialRelayState : RelayState :=
  ⟨none, "", false, [], [], [], 0, [], [], [], []⟩

/-- The 30000 ms delay of endConversation's scheduled history deletion
(line 200). -/
def GRACE_DELAY : Nat := 30000

/-- The 1000 ms delay of the stop handler's summary task (line 336). -/
def SUMMARY_DELAY : Nat := 1000

/-- JavaScript truthiness of the sessionId variable: false for null and for
the empty string. -/
def truthy : SessKey → Bool
  | none => false
  | some s => s ≠ ""

/-- ConversationManager.endConversation (lines 195-201): delete the session
from conversations immediately, schedule the deletion of its history
GRACE_DELAY later. -/
def endConversation (st : RelayState) (sid : String) : RelayState :=
  { st with
    conversations := st.conversations.filter (fun k => k ≠ some sid),
    histDelTimers := st.histDelTimers ++ [(sid, st.now + GRACE_DELAY)] }

/-- The inbound events of the ws message handler, the close callback, and the
firing of the two kinds of scheduled tasks.  interim and transcription carry
`alternatives[0].transcript` when `data.alternatives && data.alternatives[0]`
holds, else none. -/
inductive Event where
  | connected
  | start (streamSid : String)
  | media
  | interim (alt : Option String)
  | transcription (alt : Option String)
  | stop
  | wsClose
  | resolveDispatch (out : DispatchOutcome)
  | summaryTimerFire (sid : String) (collab : SummaryCollabResult)
  | histDelTimerFire (sid : String)
  | tick (dt : Nat)
deriving Repr, DecidableEq

/-- Whether a scheduled task for `sid` is due at time `now`. -/
def findDue (timers : List (String × Nat)) (sid : String) (now : Nat) : Bool :=
  timers.any (fun p => p.1 == sid && decide (p.2 ≤ now))

/-- Remove the first due task for `sid`. -/
def removeFirstDue : List (String × Nat) → String → Nat → List (String × Nat)
  | [], _, _ => []
  | p :: rest, sid, now =>
    if p.1 = sid ∧ p.2 ≤ now then rest
    else p :: removeFirstDue rest sid now

/-- One step of the connection: the switch of the ws message handler
(lines 237-342), the close callback (lines 349-354), the delivery of an
awaited dispatch outcome, and the firing of due timers.

The transcription case mirrors lines 276-321: nothing when alternatives are
absent or a dispatch is in flight; nothing when the trimmed text is empty;
otherwise isProcessing is set and the synchronous prefix of processUserMessage
runs (history creation and the caller-turn push precede the first await).

resolveDispatch mirrors the rest of that case plus processUserMessage's two
exits: on collaborator success the assistant turn is pushed and trimmed and
the reply (or, when its synthesis throws, errorResponse) is emitted; on
collaborator failure the catch block of processUserMessage returns the fixed
apology, which is then synthesized and emitted (or errorResponse when that
synthesis throws); either way the finally block clears isProcessing.

The stop case (lines 323-338) schedules the summary task SUMMARY_DELAY later
when sessionId is truthy.  summaryTimerFire runs that task: generateCallSummary
with the current manager state, a Call Record exactly when the summary is
non-null, then endConversation.  histDelTimerFire runs endConversation's
scheduled deletion of the session's history. -/
def step (st : RelayState) (ev : Event) : RelayState :=
  match ev with
  | .connected => st
  | .media => st
  | .tick dt => { st with now := st.now + dt }
  | .start streamSid =>
    { st with sessionId := some streamSid, emitted := st.emitted ++ [greeting] }
  | .interim alt =>
    match alt with
    | some t => { st with conversationBuffer := t }
    | none => st
  | .transcription alt =>
    match alt with
    | none => st
    | some userMessage =>
      if st.isProcessing then st
      else if (jsTrim userMessage).length > 0 then
        { st with
          isProcessing := true,
          pendingDispatch := st.pendingDispatch ++ [(st.sessionId, userMessage)],
          conversationHistory :=
            pumPushUser st.conversationHistory st.sessionId userMessage }
      else st
  | .resolveDispatch out =>
    match st.pendingDispatch with
    | [] => st
    | (sid, _) :: rest =>
      match out with
      | .claudeOk reply ttsOk =>
        { st with
          pendingDispatch := rest,
          isProcessing := false,
          conversationHistory := pumPushAssistant st.conversationHistory sid reply,
          emitted := st.emitted ++ [if ttsOk then reply else errorResponse] }
      | .claudeErr ttsOk =>
        { st with
          pendingDispatch := rest,
          isProcessing := false,
          emitted :=
            st.emitted ++ [if ttsOk then processFailureReply else errorResponse] }
  | .stop =>
    match st.sessionId with
    | some sid =>
      if sid ≠ "" then
        { st with summaryTimers := st.summaryTimers ++ [(sid, st.now + SUMMARY_DELAY)] }
      else st
    | none => st
  | .wsClose =>
    match st.sessionId with
    | some sid => if sid ≠ "" then endConversation st sid else st
    | none => st
  | .summaryTimerFire sid collab =>
    if findDue st.summaryTimers sid st.now then
      let st1 := { st with summaryTimers := removeFirstDue st.summaryTimers sid st.now }
      let st2 :=
        match generateCallSummary st1.conversationHistory (some sid) collab with
        | some s => { st1 with callRecords := st1.callRecords ++ [s] }
        | none => st1
      endConversation st2 sid
    else st
  | .histDelTimerFire sid =>
    if findDue st.histDelTimers sid st.now then
      { st with
        histDelTimers := removeFirstDue st.histDelTimers sid st.now,
        conversationHistory := assocDelete st.conversationHistory (some sid) }
    else st

/-- A run of the connection over a sequence of events. -/
def run (st : RelayState) (evs : List Event) : RelayState := evs.foldl step st

/-- A row of the CallLog table of the Flask application (backend-setup.md,
lines 25-45). -/
structure CallLog where
  id : Nat
  caller_phone : String
  call_duration : Nat
  transcript : String
  summary : String
  caller_intent : String
  action_items : List String
  created_at : Nat
deriving Repr, DecidableEq

/-- Whether `small` starts `big`. -/
def listStartsWith : List Char → List Char → Bool
  | [], _ => true
  | _ :: _, [] => false
  | a :: as, b :: bs => a == b && listStartsWith as bs

/-- Whether `needle` occurs contiguously inside `hay`. -/
def listOccursIn (needle : List Char) : List Char → Bool
  | [] => listStartsWith needle []
  | c :: rest => listStartsWith needle (c :: rest) || listOccursIn needle rest

/-- SQLAlchemy's column.contains(query): LIKE with the query between percent
wildcards, a substring test. -/
def sqlContains (field query : String) : Bool :=
  listOccursIn query.data field.data

/-- The filter of /api/calls/search (backend-setup.md lines 107-113): the
query as a substring of caller_phone, caller_intent or summary.  The endpoint
also orders the rows by created_at descending; the order does not change which
rows are returned, and the filter below keeps table order. -/
def searchCalls (calls : List CallLog) (query : String) : List CallLog :=
  calls.filter (fun c =>
    sqlContains c.caller_phone query || sqlContains c.caller_intent query ||
      sqlContains c.summary query)

/-- The in-flight discipline of one connection: at most one dispatch awaited,
and the isProcessing flag set exactly while one is. -/
def WF (st : RelayState) : Prop :=
  st.pendingDispatch.length ≤ 1 ∧
    (st.isProcessing = false ↔ st.pendingDispatch = [])

/-- A dispatch for session key `k` is in flight. -/
def pendingFor (st : RelayState) (k : SessKey) : Prop :=
  ∃ m, (k, m) ∈ st.pendingDispatch

/-- Events other than a failed reasoning round (the side condition of the
history-bound invariant: the failure path of processUserMessage returns from
its catch block before the trimming code runs). -/
def evOk : Event → Prop
  | .resolveDispatch (.claudeErr _) => False
  | _ => True

/-- The history-bound invariant: every stored history starts with the system
message, holds at most 22 messages while a dispatch is in flight for its key,
and at most 21 otherwise. -/
def HistInv (st : RelayState) : Prop :=
  ∀ k h, assocGet st.conversationHistory k = some h →
    h.head? = some systemMsg ∧ h.length ≤ 22 ∧
      (¬pendingFor st k → h.length ≤ 21)

/-! Concrete inputs used by counterexamples and witnesses. -/

/-- A started call that records zero turns and then stops; the summary task
fires with a successfully responding collaborator. -/
def c1CexEvents : List Event :=
  [.start "S1", .stop, .tick 1000,
    .summaryTimerFire "S1" (.ok "summary text")]

/-- A call with one turn whose summary collaborator answers without any JSON
object in the text. -/
def c1WitEvents : List Event :=
  [.start "S1", .transcription (some "Hi"),
    .resolveDispatch (.claudeOk "Hello!" true), .stop, .tick 1000]

/-- The state of c1WitEvents just before the summary task fires. -/
def c1WitState : RelayState := run initialRelayState c1WitEvents

/-- A started call whose single dispatched caller turn hits a collaborator
failure. -/
def c2CexEvents : List Event :=
  [.start "S1", .transcription (some "Hello"),
    .resolveDispatch (.claudeErr true)]

/-- A connection with a dispatch in flight (isProcessing set, one pending
request). -/
def c4WitState : RelayState :=
  ⟨some "S", "", true, [(some "S", "hi")], [], [], 0, [], [], [], []⟩

/-- A call that is fully torn down (stop, summary fired, grace delay elapsed,
history deleted) and then receives another final transcription fragment. -/
def c5CexEvents : List Event :=
  [.start "S1", .stop, .tick 1000,
    .summaryTimerFire "S1" (.ok "summary text"), .tick 30000,
    .histDelTimerFire "S1", .transcription (some "Hi again")]

/-- A session history with one caller turn and one assistant turn. -/
def c7Hist : List (SessKey × List Msg) :=
  [(some "S1", [systemMsg, ⟨"user", "Hi"⟩, ⟨"assistant", "Hello"⟩])]

/-- A call record in which the word Wednesday occurs only in the transcript
field. -/
def transcriptOnlyRecord : CallLog :=
  ⟨1, "555-0100", 60, "Caller: I need an appointment Wednesday",
    "call handled", "sales inquiry", [], 100⟩

/-- A started call whose caller turn is dispatched 21 times, each dispatch
hitting a collaborator failure. -/
def c10CexEvents : List Event :=
  Event.start "S" ::
    (List.replicate 21
      [Event.transcription (some "msg"),
        Event.resolveDispatch (.claudeErr true)]).flatten

/-- A started call with one successfully dispatched turn. -/
def c10WitEvents : List Event :=
  [.start "S", .transcription (some "hi"),
    .resolveDispatch (.claudeOk "yo" true)]

/-! Helper lemmas. -/

theorem assocGet_assocSet_self {β : Type} :
    ∀ (m : List (SessKey × β)) (k : SessKey) (v : β),
      assocGet (assocSet m k v) k = some v
  | [], k, v => by simp [assocSet, assocGet]
  | (a, b) :: rest, k, v => by
    by_cases ha : a = k
    · subst ha
      simp [assocSet, assocGet]
    · simp [assocSet, assocGet, ha, assocGet_assocSet_self rest k v]

theorem assocGet_assocSet_ne {β : Type} :
    ∀ (m : List (SessKey × β)) (k k' : SessKey) (v : β), k' ≠ k →
      assocGet (assocSet m k v) k' = assocGet m k'
  | [], k, k', v, h => by
    have hkk : ¬(k = k') := fun hh => h hh.symm
    simp [assocSet, assocGet, hkk]
  | (a, b) :: rest, k, k', v, h => by
    have hkk : ¬(k = k') := fun hh => h hh.symm
    by_cases ha : a = k
    · subst ha
      simp [assocSet, assocGet, hkk]
    · by_cases ha' : a = k'
      · simp [assocSet, assocGet, ha, ha', h]
      · simp [assocSet, assocGet, ha, ha',
          assocGet_assocSet_ne rest k k' v h]

theorem assocGet_assocDelete_self {β : Type} :
    ∀ (m : List (SessKey × β)) (k : SessKey),
      assocGet (assocDelete m k) k = none
  | [], k => by simp [assocDelete, assocGet]
  | (a, b) :: rest, k => by
    by_cases ha : a = k
    · simp [assocDelete, ha, assocGet_assocDelete_self rest k]
    · simp [assocDelete, assocGet, ha, assocGet_assocDelete_self rest k]

theorem assocGet_assocDelete_ne {β : Type} :
    ∀ (m : List (SessKey × β)) (k k' : SessKey), k' ≠ k →
      assocGet (assocDelete m k) k' = assocGet m k'
  | [], k, k', h => by simp [assocDelete]
  | (a, b) :: rest, k, k', h => by
    by_cases ha : a = k
    · subst ha
      have hak : ¬(a = k') := fun hh => h hh.symm
      simp [assocDelete, assocGet, hak, assocGet_assocDelete_ne rest a k' h]
    · simp [assocDelete, assocGet, ha, assocGet_assocDelete_ne rest k k' h]

theorem pumPushUser_get_self (hists : List (SessKey × List Msg)) (k : SessKey)
    (msg : String) :
    assocGet (pumPushUser hists k msg) k =
      some ((assocGet hists k).getD [systemMsg] ++ [⟨"user", msg⟩]) := by
  simp [pumPushUser, assocGet_assocSet_self]

theorem pumPushUser_get_ne (hists : List (SessKey × List Msg)) (k k' : SessKey)
    (msg : String) (h : k' ≠ k) :
    assocGet (pumPushUser hists k msg) k' = assocGet hists k' := by
  simp [pumPushUser, assocGet_assocSet_ne _ _ _ _ h]

theorem step_interim_some (st : RelayState) (t : String) :
    step st (.interim (some t)) = { st with conversationBuffer := t } := rfl

theorem step_transcription_blank (st : RelayState) (m : String)
    (hm : (jsTrim m).length = 0) : step st (.transcription (some m)) = st := by
  by_cases hp : st.isProcessing <;> simp [step, hp, hm]

theorem step_transcription_enabled (st : RelayState) (m : String)
    (hp : st.isProcessing = false) (hm : 0 < (jsTrim m).length) :
    step st (.transcription (some m)) =
      { st with
        isProcessing := true,
        pendingDispatch := st.pendingDispatch ++ [(st.sessionId, m)],
        conversationHistory :=
          pumPushUser st.conversationHistory st.sessionId m } := by
  simp [step, hp, hm]

theorem getLast?_getD_cons_indep {α : Type} :
    ∀ (us : List α) (u d d' : α),
      (u :: us).getLast?.getD d = (u :: us).getLast?.getD d'
  | [], _, _, _ => rfl
  | v :: vs, u, d, d' => by
    rw [List.getLast?_cons_cons]
    exact getLast?_getD_cons_indep vs v d d'

theorem run_interim_map :
    ∀ (ts : List String) (st : RelayState),
      run st (ts.map fun t => Event.interim (some t)) =
        { st with conversationBuffer := ts.getLastD st.conversationBuffer }
  | [], st => rfl
  | t :: ts, st => by
    show run (step st (.interim (some t))) (ts.map fun u => Event.interim (some u)) = _
    rw [step_interim_some, run_interim_map ts]
    cases ts with
    | nil => simp
    | cons u us =>
      simp [List.getLast?_cons_cons]
      exact getLast?_getD_cons_indep us u t st.conversationBuffer

theorem wf_step (st : RelayState) (ev : Event) (h : WF st) : WF (step st ev) := by
  obtain ⟨h1, h2⟩ := h
  cases ev with
  | connected => exact ⟨h1, h2⟩
  | media => exact ⟨h1, h2⟩
  | tick dt => exact ⟨h1, h2⟩
  | start s => exact ⟨h1, h2⟩
  | interim alt =>
    cases alt with
    | none => exact ⟨h1, h2⟩
    | some t => exact ⟨h1, h2⟩
  | transcription alt =>
    cases alt with
    | none => exact ⟨h1, h2⟩
    | some m =>
      by_cases hp : st.isProcessing
      · simpa [step, hp] using ⟨h1, h2⟩
      · by_cases hm : 0 < (jsTrim m).length
        · have hpd : st.pendingDispatch = [] := h2.mp (by simpa using hp)
          simp [step, hp, hm, WF, hpd]
        · have hm0 : (jsTrim m).length = 0 := by omega
          simpa [step_transcription_blank st m hm0] using ⟨h1, h2⟩
  | resolveDispatch out =>
    cases hpd : st.pendingDispatch with
    | nil => simpa [step, hpd] using ⟨h1, h2⟩
    | cons p rest =>
      have hrest : rest = [] := by
        rw [hpd] at h1
        simp only [List.length_cons] at h1
        have h0 : rest.length = 0 := by omega
        exact List.length_eq_zero.mp h0
      subst hrest
      cases out with
      | claudeOk reply tts => simp [step, hpd, WF]
      | claudeErr tts => simp [step, hpd, WF]
  | stop =>
    cases hs : st.sessionId with
    | none => simpa [step, hs] using ⟨h1, h2⟩
    | some sid =>
      by_cases he : sid = ""
      · simpa [step, hs, he] using ⟨h1, h2⟩
      · simpa [step, hs, he] using ⟨h1, h2⟩
  | wsClose =>
    cases hs : st.sessionId with
    | none => simpa [step, hs] using ⟨h1, h2⟩
    | some sid =>
      by_cases he : sid = ""
      · simpa [step, hs, he] using ⟨h1, h2⟩
      · simpa [step, hs, he, endConversation] using ⟨h1, h2⟩
  | summaryTimerFire sid collab =>
    by_cases hd : findDue st.summaryTimers sid st.now
    · cases hg : generateCallSummary st.conversationHistory (some sid) collab with
      | none => simpa [step, hd, hg, endConversation] using ⟨h1, h2⟩
      | some s => simpa [step, hd, hg, endConversation] using ⟨h1, h2⟩
    · simpa [step, hd] using ⟨h1, h2⟩
  | histDelTimerFire sid =>
    by_cases hd : findDue st.histDelTimers sid st.now
    · simpa [step, hd] using ⟨h1, h2⟩
    · simpa [step, hd] using ⟨h1, h2⟩

theorem wf_run (evs : List Event) (st : RelayState) (h : WF st) :
    WF (run st evs) := by
  induction evs generalizing st with
  | nil => exact h
  | cons e rest ih => exact ih (step st e) (wf_step st e h)

theorem wf_initial : WF initialRelayState := by
  constructor <;> simp [initialRelayState]

theorem step_resolve_ok (st : RelayState) (sid : SessKey) (msg reply : String)
    (tts : Bool) (rest : List (SessKey × String))
    (hpd : st.pendingDispatch = (sid, msg) :: rest) :
    step st (.resolveDispatch (.claudeOk reply tts)) =
      { st with
        pendingDispatch := rest,
        isProcessing := false,
        conversationHistory := pumPushAssistant st.conversationHistory sid reply,
        emitted := st.emitted ++ [if tts then reply else errorResponse] } := by
  simp [step, hpd]

theorem step_resolve_err (st : RelayState) (sid : SessKey) (msg : String)
    (tts : Bool) (rest : List (SessKey × String))
    (hpd : st.pendingDispatch = (sid, msg) :: rest) :
    step st (.resolveDispatch (.claudeErr tts)) =
      { st with
        pendingDispatch := rest,
        isProcessing := false,
        emitted :=
          st.emitted ++ [if tts then processFailureReply else errorResponse] } := by
  simp [step, hpd]

theorem step_histDel_due (st : RelayState) (sid : String)
    (hd : findDue st.histDelTimers sid st.now = true) :
    step st (.histDelTimerFire sid) =
      { st with
        histDelTimers := removeFirstDue st.histDelTimers sid st.now,
        conversationHistory := assocDelete st.conversationHistory (some sid) } := by
  simp [step, hd]

theorem pumPushAssistant_get_ne (hists : List (SessKey × List Msg))
    (k k' : SessKey) (r : String) (h : k' ≠ k) :
    assocGet (pumPushAssistant hists k r) k' = assocGet hists k' := by
  cases hold : assocGet hists k with
  | none => simp [pumPushAssistant, hold]
  | some hh => simp [pumPushAssistant, hold, assocGet_assocSet_ne _ _ _ _ h]

theorem pumPushAssistant_get_self (hists : List (SessKey × List Msg))
    (k : SessKey) (r : String) (hh : List Msg)
    (hold : assocGet hists k = some hh) :
    assocGet (pumPushAssistant hists k r) k =
      some (trimHistory (hh ++ [⟨"assistant", r⟩])) := by
  simp [pumPushAssistant, hold, assocGet_assocSet_self]

theorem trimHistory_length_le (h : List Msg) (hlen : h.length ≤ 23) :
    (trimHistory h).length ≤ 21 := by
  by_cases hgt : h.length > 21
  · simp [trimHistory, hgt]
    omega
  · simp [trimHistory, hgt]
    omega

theorem trimHistory_head_cons (a : Msg) (t : List Msg) :
    (trimHistory (a :: t)).head? = some a := by
  simp only [trimHistory]
  split <;> simp

/-- HistInv transfers between states with the same history map and the same
pending-dispatch list. -/
theorem histInv_of_eq_core (st st' : RelayState)
    (hh : st'.conversationHistory = st.conversationHistory)
    (hp : st'.pendingDispatch = st.pendingDispatch) (hinv : HistInv st) :
    HistInv st' := by
  intro k h hget
  rw [hh] at hget
  obtain ⟨a, b, c⟩ := hinv k h hget
  refine ⟨a, b, fun hnp => c fun hex => hnp ?_⟩
  obtain ⟨m', hm'⟩ := hex
  exact ⟨m', by rw [hp]; exact hm'⟩

theorem histInv_step (st : RelayState) (ev : Event) (hwf : WF st)
    (hinv : HistInv st) (hok : evOk ev) : HistInv (step st ev) := by
  cases ev with
  | connected => exact hinv
  | media => exact hinv
  | tick dt => exact histInv_of_eq_core st _ rfl rfl hinv
  | start s => exact histInv_of_eq_core st _ rfl rfl hinv
  | interim alt =>
    cases alt with
    | none => exact hinv
    | some t => exact histInv_of_eq_core st _ rfl rfl hinv
  | transcription alt =>
    cases alt with
    | none => exact hinv
    | some m =>
      by_cases hp : st.isProcessing
      · exact histInv_of_eq_core st _ (by simp [step, hp]) (by simp [step, hp]) hinv
      · by_cases hm : 0 < (jsTrim m).length
        · have hpd : st.pendingDispatch = [] := hwf.2.mp (by simpa using hp)
          rw [step_transcription_enabled st m (by simpa using hp) hm]
          intro k h hget
          by_cases hk : k = st.sessionId
          · rw [hk] at hget ⊢
            rw [pumPushUser_get_self] at hget
            injection hget with hh
            cases hold : assocGet st.conversationHistory st.sessionId with
            | none =>
              rw [hold] at hh
              refine ⟨?_, ?_, ?_⟩ <;> simp [← hh, systemMsg]
            | some hOld =>
              rw [hold] at hh
              obtain ⟨hhead, _, hlen21⟩ := hinv st.sessionId hOld hold
              have hb : hOld.length ≤ 21 := by
                refine hlen21 fun hex => ?_
                obtain ⟨m', hm'⟩ := hex
                rw [hpd] at hm'
                simp at hm'
              refine ⟨?_, ?_, fun hnp => absurd ⟨m, by simp [hpd]⟩ hnp⟩
              · cases hOld with
                | nil => simp at hhead
                | cons a t =>
                  simp at hhead
                  simp [← hh, hhead]
              · simp [← hh]
                omega
          · rw [pumPushUser_get_ne _ _ _ _ hk] at hget
            obtain ⟨a, b, c⟩ := hinv k h hget
            refine ⟨a, b, fun _ => c fun hex => ?_⟩
            obtain ⟨m', hm'⟩ := hex
            rw [hpd] at hm'
            simp at hm'
        · have hm0 : (jsTrim m).length = 0 := by omega
          rw [step_transcription_blank st m hm0]
          exact hinv
  | resolveDispatch out =>
    cases hpd : st.pendingDispatch with
    | nil => exact histInv_of_eq_core st _ (by simp [step, hpd]) (by simp [step, hpd]) hinv
    | cons p rest =>
      have hrest : rest = [] := by
        have h1 := hwf.1
        rw [hpd] at h1
        simp only [List.length_cons] at h1
        have h0 : rest.length = 0 := by omega
        exact List.length_eq_zero.mp h0
      subst hrest
      obtain ⟨sid, msg⟩ := p
      cases out with
      | claudeErr tts => exact absurd hok (by simp [evOk])
      | claudeOk reply tts =>
        rw [step_resolve_ok st sid msg reply tts [] hpd]
        intro k h hget
        by_cases hk : k = sid
        · subst hk
          cases hold : assocGet st.conversationHistory k with
          | none =>
            simp [pumPushAssistant, hold] at hget
          | some hOld =>
            rw [pumPushAssistant_get_self _ _ _ _ hold] at hget
            injection hget with hh
            obtain ⟨hhead, hlen22, _⟩ := hinv k hOld hold
            have hlen : (trimHistory (hOld ++ [⟨"assistant", reply⟩])).length ≤ 21 := by
              refine trimHistory_length_le _ ?_
              simp
              omega
            refine ⟨?_, by rw [← hh]; omega, fun _ => by rw [← hh]; exact hlen⟩
            cases hOld with
            | nil => simp at hhead
            | cons a t =>
              simp at hhead
              rw [← hh]
              simpa [hhead] using trimHistory_head_cons a (t ++ [⟨"assistant", reply⟩])
        · rw [pumPushAssistant_get_ne _ _ _ _ hk] at hget
          obtain ⟨a, b, c⟩ := hinv k h hget
          refine ⟨a, b, fun _ => c fun hex => ?_⟩
          obtain ⟨m', hm'⟩ := hex
          rw [hpd] at hm'
          simp at hm'
          exact hk hm'.1
  | stop =>
    cases hs : st.sessionId with
    | none => exact histInv_of_eq_core st _ (by simp [step, hs]) (by simp [step, hs]) hinv
    | some sid =>
      by_cases he : sid = ""
      · exact histInv_of_eq_core st _ (by simp [step, hs, he]) (by simp [step, hs, he]) hinv
      · exact histInv_of_eq_core st _ (by simp [step, hs, he]) (by simp [step, hs, he]) hinv
  | wsClose =>
    cases hs : st.sessionId with
    | none => exact histInv_of_eq_core st _ (by simp [step, hs]) (by simp [step, hs]) hinv
    | some sid =>
      by_cases he : sid = ""
      · exact histInv_of_eq_core st _ (by simp [step, hs, he]) (by simp [step, hs, he]) hinv
      · exact histInv_of_eq_core st _ (by simp [step, hs, he, endConversation])
          (by simp [step, hs, he, endConversation]) hinv
  | summaryTimerFire sid collab =>
    by_cases hd : findDue st.summaryTimers sid st.now
    · cases hg : generateCallSummary st.conversationHistory (some sid) collab with
      | none =>
        exact histInv_of_eq_core st _ (by simp [step, hd, hg, endConversation])
          (by simp [step, hd, hg, endConversation]) hinv
      | some s =>
        exact histInv_of_eq_core st _ (by simp [step, hd, hg, endConversation])
          (by simp [step, hd, hg, endConversation]) hinv
    · exact histInv_of_eq_core st _ (by simp [step, hd]) (by simp [step, hd]) hinv
  | histDelTimerFire sid =>
    by_cases hd : findDue st.histDelTimers sid st.now
    · rw [step_histDel_due st sid hd]
      intro k h hget
      by_cases hk : k = some sid
      · subst hk
        rw [assocGet_assocDelete_self] at hget
        cases hget
      · rw [assocGet_assocDelete_ne _ _ _ hk] at hget
        exact hinv k h hget
    · exact histInv_of_eq_core st _ (by simp [step, hd]) (by simp [step, hd]) hinv

theorem histInv_initial : HistInv initialRelayState := by
  intro k h hget
  simp [initialRelayState, assocGet] at hget

theorem histInv_run (evs : List Event) (st : RelayState) (hwf : WF st)
    (hinv : HistInv st) (hok : ∀ ev ∈ evs, evOk ev) : HistInv (run st evs) := by
  induction evs generalizing st with
  | nil => exact hinv
  | cons e rest ih =>
    exact ih (step st e) (wf_step st e hwf)
      (histInv_step st e hwf hinv (hok e (by simp)))
      (fun ev hev => hok ev (by simp [hev]))

theorem listStartsWith_iff :
    ∀ n h : List Char, listStartsWith n h = true ↔ ∃ r, h = n ++ r
  | [], h => by simp [listStartsWith]
  | a :: as, [] => by simp [listStartsWith]
  | a :: as, b :: bs => by
    simp only [listStartsWith, Bool.and_eq_true, beq_iff_eq]
    rw [listStartsWith_iff as bs]
    constructor
    · rintro ⟨hab, r, hr⟩
      exact ⟨r, by rw [hab, hr]; rfl⟩
    · rintro ⟨r, hr⟩
      simp only [List.cons_append, List.cons.injEq] at hr
      exact ⟨hr.1.symm, r, hr.2⟩

theorem listOccursIn_iff :
    ∀ n h : List Char, listOccursIn n h = true ↔ ∃ l r, h = l ++ n ++ r
  | n, [] => by
    simp only [listOccursIn]
    rw [listStartsWith_iff n []]
    constructor
    · rintro ⟨r, hr⟩
      exact ⟨[], r, by simpa using hr⟩
    · rintro ⟨l, r, hr⟩
      have hl : l = [] := by
        cases l with
        | nil => rfl
        | cons x xs => simp at hr
      subst hl
      exact ⟨r, by simpa using hr⟩
  | n, c :: rest => by
    simp only [listOccursIn, Bool.or_eq_true]
    rw [listStartsWith_iff n (c :: rest), listOccursIn_iff n rest]
    constructor
    · rintro (⟨r, hr⟩ | ⟨l, r, hr⟩)
      · exact ⟨[], r, by simpa using hr⟩
      · exact ⟨c :: l, r, by simp [hr]⟩
    · rintro ⟨l, r, hr⟩
      cases l with
      | nil => exact Or.inl ⟨r, by simpa using hr⟩
      | cons x xs =>
        simp only [List.cons_append, List.cons.injEq] at hr
        exact Or.inr ⟨xs, r, hr.2⟩

theorem sqlContains_iff (field q : String) :
    sqlContains field q = true ↔ ∃ l r, field.data = l ++ q.data ++ r :=
  listOccursIn_iff q.data field.data

/-! The claims. -/

/-- C1, counterexample: the claim says a call-stop always yields exactly one
Call Record, even with zero recorded turns.  On a started call with zero
turns, the stop event fires the summary task with a successfully responding
collaborator, yet no Call Record is produced: generateCallSummary returns null
because getConversationSummary is null for a session without a history, and
the stop handler persists nothing for a null summary. -/
theorem stop_zero_turns_no_record :
    (run initialRelayState c1CexEvents).callRecords = [] := rfl

/-- C1 (amended): a call-stop event produces at most one Call Record, namely
exactly one when generateCallSummary is non-null; and generateCallSummary is
null exactly when the call recorded no turn (no non-trivial history), or the
summary collaborator request throws, or the brace-delimited substring of its
response text fails to JSON-parse.  A no-JSON response with at least one turn
still yields the degraded record. -/
theorem summaryFire_record_iff (st : RelayState) (sid : String)
    (collab : SummaryCollabResult)
    (hd : findDue st.summaryTimers sid st.now = true) :
    ((step st (.summaryTimerFire sid collab)).callRecords =
      st.callRecords ++
        (match generateCallSummary st.conversationHistory (some sid) collab with
         | some s => [s]
         | none => [])) ∧
    (generateCallSummary st.conversationHistory (some sid) collab = none ↔
      getConversationSummary st.conversationHistory (some sid) = none ∨
        collab = .err ∨
        ∃ text m, collab = .ok text ∧ braceMatch text = some m ∧
          jsonParse m = none) := by
  constructor
  · cases hg : generateCallSummary st.conversationHistory (some sid) collab with
    | none => simp [step, hd, hg, endConversation]
    | some s => simp [step, hd, hg, endConversation]
  · unfold generateCallSummary
    cases hc : getConversationSummary st.conversationHistory (some sid) with
    | none => simp
    | some cd =>
      cases collab with
      | err => simp
      | ok text =>
        cases hb : braceMatch text with
        | none => simp [hb]
        | some mtext =>
          cases hj : jsonParse mtext with
          | none => simp [hb, hj]
          | some j => simp [hb, hj]

/-- C1 witness: a one-turn call whose summary collaborator responds without a
JSON object; the fired summary task appends exactly one (degraded) record. -/
theorem summaryFire_record_iff_witness :
    findDue c1WitState.summaryTimers "S1" c1WitState.now = true ∧
    (((step c1WitState (.summaryTimerFire "S1" (.ok "no json here"))).callRecords =
      c1WitState.callRecords ++
        (match generateCallSummary c1WitState.conversationHistory (some "S1")
            (.ok "no json here") with
         | some s => [s]
         | none => [])) ∧
    (generateCallSummary c1WitState.conversationHistory (some "S1")
        (.ok "no json here") = none ↔
      getConversationSummary c1WitState.conversationHistory (some "S1") = none ∨
        SummaryCollabResult.ok "no json here" = .err ∨
        ∃ text m, SummaryCollabResult.ok "no json here" = .ok text ∧
          braceMatch text = some m ∧ jsonParse m = none)) :=
  ⟨rfl, summaryFire_record_iff c1WitState "S1" (.ok "no json here") rfl⟩

/-- C2, counterexample: the claim says a collaborator failure leaves the turn
history exactly as before the dispatch.  Before the dispatch the session has
no stored history; after the failed dispatch the history holds the caller
turn (pushed before the await, never rolled back by the catch block), while
the fixed apology is emitted. -/
theorem dispatch_failure_history_counterexample :
    assocGet (run initialRelayState [.start "S1"]).conversationHistory
        (some "S1") = none ∧
    assocGet (run initialRelayState c2CexEvents).conversationHistory
        (some "S1") = some [systemMsg, ⟨"user", "Hello"⟩] ∧
    (run initialRelayState c2CexEvents).emitted =
      [greeting, processFailureReply] :=
  ⟨rfl, rfl, rfl⟩

/-- C2 (amended): on collaborator failure the fixed apology utterance is
emitted, no assistant turn is appended and the session returns to listening
(flag cleared, nothing pending), but the caller turn pushed when the dispatch
began remains: the history equals its pre-dispatch value (seeded with the
system message when absent) extended by exactly that caller turn; other
sessions are untouched. -/
theorem dispatch_failure_keeps_caller_turn (st : RelayState) (m : String)
    (hp : st.isProcessing = false) (hm : 0 < (jsTrim m).length)
    (hpd : st.pendingDispatch = []) :
    (step (step st (.transcription (some m)))
        (.resolveDispatch (.claudeErr true))).emitted =
      st.emitted ++ [processFailureReply] ∧
    assocGet (step (step st (.transcription (some m)))
        (.resolveDispatch (.claudeErr true))).conversationHistory
        st.sessionId =
      some ((assocGet st.conversationHistory st.sessionId).getD [systemMsg] ++
        [⟨"user", m⟩]) ∧
    (∀ k, k ≠ st.sessionId →
      assocGet (step (step st (.transcription (some m)))
          (.resolveDispatch (.claudeErr true))).conversationHistory k =
        assocGet st.conversationHistory k) ∧
    (step (step st (.transcription (some m)))
        (.resolveDispatch (.claudeErr true))).isProcessing = false ∧
    (step (step st (.transcription (some m)))
        (.resolveDispatch (.claudeErr true))).pendingDispatch = [] := by
  rw [step_transcription_enabled st m hp hm]
  rw [step_resolve_err _ st.sessionId m true [] (by simp [hpd])]
  exact ⟨by simp, pumPushUser_get_self _ _ _,
    fun k hk => pumPushUser_get_ne _ _ _ _ hk, rfl, rfl⟩

/-- C2 witness: a fresh started call whose first dispatched turn fails. -/
theorem dispatch_failure_keeps_caller_turn_witness :
    (run initialRelayState [.start "S1"]).isProcessing = false ∧
    0 < (jsTrim "Hello").length ∧
    (run initialRelayState [.start "S1"]).pendingDispatch = [] ∧
    (step (step (run initialRelayState [.start "S1"])
        (.transcription (some "Hello")))
        (.resolveDispatch (.claudeErr true))).emitted =
      (run initialRelayState [.start "S1"]).emitted ++
        [processFailureReply] :=
  ⟨rfl, by decide, rfl,
    (dispatch_failure_keeps_caller_turn (run initialRelayState [.start "S1"])
      "Hello" rfl (by decide) rfl).1⟩

/-- C3: any sequence of interim fragments followed by one final fragment with
non-whitespace text appends exactly one caller turn whose text is the final
fragment's text: the interims leave every history untouched (each one only
replaces the buffered text, never appends to it), and the final fragment
extends the session's history by exactly the one caller turn carrying its own
text, leaving other sessions untouched. -/
theorem final_fragment_appends_one_turn (st : RelayState) (ts : List String)
    (m : String) (hp : st.isProcessing = false) (hm : 0 < (jsTrim m).length) :
    (run st (ts.map fun t => Event.interim (some t))).conversationHistory =
      st.conversationHistory ∧
    (run st (ts.map fun t => Event.interim (some t))).conversationBuffer =
      ts.getLastD st.conversationBuffer ∧
    assocGet (step (run st (ts.map fun t => Event.interim (some t)))
        (.transcription (some m))).conversationHistory st.sessionId =
      some ((assocGet st.conversationHistory st.sessionId).getD [systemMsg] ++
        [⟨"user", m⟩]) ∧
    (∀ k, k ≠ st.sessionId →
      assocGet (step (run st (ts.map fun t => Event.interim (some t)))
          (.transcription (some m))).conversationHistory k =
        assocGet st.conversationHistory k) := by
  rw [run_interim_map]
  refine ⟨rfl, rfl, ?_, ?_⟩
  · rw [step_transcription_enabled
      { st with conversationBuffer := ts.getLastD st.conversationBuffer } m hp hm]
    exact pumPushUser_get_self _ _ _
  · intro k hk
    rw [step_transcription_enabled
      { st with conversationBuffer := ts.getLastD st.conversationBuffer } m hp hm]
    exact pumPushUser_get_ne _ _ _ _ hk

/-- C3 witness: the spec's scenario — interims then the final fragment about
a Wednesday appointment append exactly the one caller turn. -/
theorem final_fragment_appends_one_turn_witness :
    (run initialRelayState [.start "S1"]).isProcessing = false ∧
    0 < (jsTrim "I need an appointment Wednesday").length ∧
    assocGet (step (run (run initialRelayState [.start "S1"])
        (["", "I need"].map fun t => Event.interim (some t)))
        (.transcription (some "I need an appointment Wednesday"))).conversationHistory
        (run initialRelayState [.start "S1"]).sessionId =
      some ((assocGet (run initialRelayState [.start "S1"]).conversationHistory
          (run initialRelayState [.start "S1"]).sessionId).getD [systemMsg] ++
        [⟨"user", "I need an appointment Wednesday"⟩]) :=
  ⟨rfl, by decide,
    (final_fragment_appends_one_turn (run initialRelayState [.start "S1"])
      ["", "I need"] "I need an appointment Wednesday" rfl (by decide)).2.2.1⟩

/-- C4: at most one reasoning-collaborator turn dispatch is ever in flight for
a connection — every reachable state has at most one pending dispatch — and a
final transcription fragment arriving while the isProcessing flag is set is
ignored outright, triggering no second concurrent dispatch.  (Scope: turn
dispatches, the subject of the guard at line 278; the post-call summary
request is a separate, sequential call.) -/
theorem single_dispatch_in_flight :
    (∀ evs : List Event,
      (run initialRelayState evs).pendingDispatch.length ≤ 1) ∧
    (∀ (st : RelayState) (alt : Option String), st.isProcessing = true →
      step st (.transcription alt) = st) := by
  constructor
  · intro evs
    exact (wf_run evs initialRelayState wf_initial).1
  · intro st alt hp
    cases alt with
    | none => rfl
    | some m => simp [step, hp]

/-- C4 witness: a run with a fragment arriving mid-dispatch keeps one pending
dispatch, and a transcription event on a processing state is the identity. -/
theorem single_dispatch_in_flight_witness :
    (run initialRelayState
      [.start "S", .transcription (some "hi"),
        .transcription (some "again")]).pendingDispatch.length ≤ 1 ∧
    c4WitState.isProcessing = true ∧
    step c4WitState (.transcription (some "x")) = c4WitState :=
  ⟨single_dispatch_in_flight.1 _, rfl,
    single_dispatch_in_flight.2 c4WitState (some "x") rfl⟩

/-- C5, counterexample: the claim says fragments for a torn-down call id are
no-ops.  After a full teardown (stop, summary fired, grace delay elapsed,
history deleted) a final transcription fragment re-creates the history with a
fresh system message, appends a caller turn and triggers a reasoning
dispatch. -/
theorem post_teardown_fragment_counterexample :
    assocGet (run initialRelayState (c5CexEvents.take 6)).conversationHistory
        (some "S1") = none ∧
    assocGet (run initialRelayState c5CexEvents).conversationHistory
        (some "S1") = some [systemMsg, ⟨"user", "Hi again"⟩] ∧
    (run initialRelayState c5CexEvents).pendingDispatch =
      [(some "S1", "Hi again")] :=
  ⟨rfl, rfl, rfl⟩

/-- C5 (amended): a transcription fragment for a call id whose session state
was torn down is processed as live traffic — the handler has no post-Ended
guard: the history is re-created seeded with the system message, the caller
turn is appended, and a reasoning dispatch is triggered. -/
theorem post_teardown_fragment_resurrects (st : RelayState) (m : String)
    (hp : st.isProcessing = false) (hm : 0 < (jsTrim m).length)
    (hgone : assocGet st.conversationHistory st.sessionId = none) :
    assocGet (step st (.transcription (some m))).conversationHistory
        st.sessionId = some [systemMsg, ⟨"user", m⟩] ∧
    (step st (.transcription (some m))).pendingDispatch =
      st.pendingDispatch ++ [(st.sessionId, m)] ∧
    (step st (.transcription (some m))).isProcessing = true := by
  rw [step_transcription_enabled st m hp hm]
  refine ⟨?_, rfl, rfl⟩
  rw [pumPushUser_get_self, hgone]
  rfl

/-- C5 witness: the torn-down call of the counterexample run satisfies the
amended statement's hypotheses at its final fragment. -/
theorem post_teardown_fragment_resurrects_witness :
    (run initialRelayState (c5CexEvents.take 6)).isProcessing = false ∧
    0 < (jsTrim "Hi again").length ∧
    assocGet (run initialRelayState
        (c5CexEvents.take 6)).conversationHistory
        (run initialRelayState (c5CexEvents.take 6)).sessionId = none ∧
    assocGet (step (run initialRelayState (c5CexEvents.take 6))
        (.transcription (some "Hi again"))).conversationHistory
        (run initialRelayState (c5CexEvents.take 6)).sessionId =
      some [systemMsg, ⟨"user", "Hi again"⟩] :=
  ⟨rfl, by decide, rfl,
    (post_teardown_fragment_resurrects
      (run initialRelayState (c5CexEvents.take 6)) "Hi again" rfl (by decide)
      rfl).1⟩

/-- C6: a final transcription fragment whose text trims to the empty string is
discarded entirely: the connection state — in particular every session
history, the pending dispatches and the flag — is exactly unchanged, so no
caller turn is appended and no reasoning dispatch occurs. -/
theorem blank_final_fragment_noop (st : RelayState) (m : String)
    (hm : (jsTrim m).length = 0) : step st (.transcription (some m)) = st :=
  step_transcription_blank st m hm

/-- C6 witness: a whitespace-only final fragment leaves the started call's
state unchanged. -/
theorem blank_final_fragment_noop_witness :
    ((jsTrim "   ").length = 0) ∧
    step (run initialRelayState [.start "S1"])
        (.transcription (some "   ")) =
      run initialRelayState [.start "S1"] :=
  ⟨by decide,
    blank_final_fragment_noop (run initialRelayState [.start "S1"]) "   "
      (by decide)⟩

/-- C7, counterexample: the claim says any malformed, non-parseable summary
response yields the deterministic degraded summary.  For a session with two
turns, a response whose brace-delimited substring is not valid JSON makes
JSON.parse throw into generateCallSummary's own catch block: the result is
null — the call-logging step fails — not the degraded summary. -/
theorem summary_extraction_invalid_json_counterexample :
    getConversationSummary c7Hist (some "S1") =
      some ⟨"Caller: Hi\nAssistant: Hello", 2⟩ ∧
    generateCallSummary c7Hist (some "S1") (.ok "{not valid json}") = none :=
  ⟨rfl, rfl⟩

/-- C7 (amended): for a session with at least one turn, the degraded summary
(fixed intent string, transcript truncated to 200 characters plus an
ellipsis, empty action items) is returned exactly when the response text
contains no brace-delimited substring; a brace-delimited substring that fails
to JSON-parse makes the whole step return null, and one that parses is
returned as-is without schema validation. -/
theorem summary_extraction_branches (hists : List (SessKey × List Msg))
    (sid : SessKey) (text : String) (cd : ConversationData)
    (hc : getConversationSummary hists sid = some cd) :
    (braceMatch text = none →
      generateCallSummary hists sid (.ok text) =
        some (.fallback fallbackIntent (jsSubstringTo cd.transcript 200 ++ "...") [])) ∧
    (∀ m, braceMatch text = some m → jsonParse m = none →
      generateCallSummary hists sid (.ok text) = none) ∧
    (∀ m j, braceMatch text = some m → jsonParse m = some j →
      generateCallSummary hists sid (.ok text) = some (.parsed j)) := by
  refine ⟨fun hb => ?_, fun m hb hj => ?_, fun m j hb hj => ?_⟩
  · simp [generateCallSummary, hc, hb]
  · simp [generateCallSummary, hc, hb, hj]
  · simp [generateCallSummary, hc, hb, hj]

/-- C7 witness: a two-turn session with a braceless response takes the
degraded branch. -/
theorem summary_extraction_branches_witness :
    getConversationSummary c7Hist (some "S1") =
      some ⟨"Caller: Hi\nAssistant: Hello", 2⟩ ∧
    braceMatch "plain text" = none ∧
    generateCallSummary c7Hist (some "S1") (.ok "plain text") =
      some (.fallback fallbackIntent
        (jsSubstringTo "Caller: Hi\nAssistant: Hello" 200 ++ "...") []) :=
  ⟨rfl, rfl,
    (summary_extraction_branches c7Hist (some "S1") "plain text"
      ⟨"Caller: Hi\nAssistant: Hello", 2⟩ rfl).1 rfl⟩

/-- C8, counterexample: the claim says search matches across the four fields
phone, intent, summary and transcript.  A record whose transcript — and only
whose transcript — contains the query is not returned by search_calls: the
endpoint filters on caller_phone, caller_intent and summary only. -/
theorem search_misses_transcript_counterexample :
    searchCalls [transcriptOnlyRecord] "Wednesday" = [] ∧
    sqlContains transcriptOnlyRecord.transcript "Wednesday" = true :=
  ⟨rfl, rfl⟩

/-- C8 (amended): the search endpoint returns exactly the records in which the
query occurs as a substring of the caller phone, the caller intent or the
summary; the transcript field is not searched. -/
theorem search_membership_three_fields (calls : List CallLog) (q : String)
    (c : CallLog) :
    c ∈ searchCalls calls q ↔
      c ∈ calls ∧
        ((∃ l r, c.caller_phone.data = l ++ q.data ++ r) ∨
          (∃ l r, c.caller_intent.data = l ++ q.data ++ r) ∨
          (∃ l r, c.summary.data = l ++ q.data ++ r)) := by
  rw [searchCalls, List.mem_filter]
  simp only [Bool.or_eq_true, sqlContains_iff]
  rw [or_assoc]

/-- C9: endConversation drops the session from the live-conversation map but
leaves every stored history untouched, scheduling the history deletion at
exactly GRACE_DELAY after the current instant; a deletion task that is not yet
due is a no-op, the freshly scheduled task is not due at any instant before
the grace delay has elapsed, and only a due task deletes the session's
history. -/
theorem teardown_grace_delay (st : RelayState) (sid : String) :
    (endConversation st sid).conversationHistory = st.conversationHistory ∧
    (endConversation st sid).histDelTimers =
      st.histDelTimers ++ [(sid, st.now + GRACE_DELAY)] ∧
    (∀ t, t < st.now + GRACE_DELAY →
      findDue [(sid, st.now + GRACE_DELAY)] sid t = false) ∧
    (findDue st.histDelTimers sid st.now = false →
      step st (.histDelTimerFire sid) = st) ∧
    (findDue st.histDelTimers sid st.now = true →
      (step st (.histDelTimerFire sid)).conversationHistory =
        assocDelete st.conversationHistory (some sid) ∧
      assocGet (step st (.histDelTimerFire sid)).conversationHistory
        (some sid) = none) := by
  refine ⟨rfl, rfl, ?_, ?_, ?_⟩
  · intro t ht
    simp [findDue]
    omega
  · intro hd
    simp [step, hd]
  · intro hd
    rw [step_histDel_due st sid hd]
    exact ⟨rfl, assocGet_assocDelete_self _ _⟩

/-- C9 witness: tearing down the one-turn call keeps its history readable and
schedules deletion 30000 ms out; firing early is a no-op and firing once due
deletes the history. -/
theorem teardown_grace_delay_witness :
    (endConversation c1WitState "S1").conversationHistory =
      c1WitState.conversationHistory ∧
    findDue [("S1", c1WitState.now + GRACE_DELAY)] "S1" c1WitState.now =
      false ∧
    findDue c1WitState.histDelTimers "S1" c1WitState.now = false ∧
    step c1WitState (.histDelTimerFire "S1") = c1WitState :=
  ⟨(teardown_grace_delay c1WitState "S1").1,
    (teardown_grace_delay c1WitState "S1").2.2.1 c1WitState.now (by decide),
    rfl,
    (teardown_grace_delay c1WitState "S1").2.2.2.1 rfl⟩

/-- C10, counterexample: the claim says every completed processUserMessage
call leaves at most 21 stored messages.  The trimming runs only on the
success path; a failed call returns from the catch block after the caller
turn was pushed, so 21 consecutive failed calls leave 22 messages stored. -/
theorem history_bound_counterexample :
    ((assocGet (run initialRelayState c10CexEvents).conversationHistory
      (some "S")).getD []).length = 22 := rfl

/-- C10 (amended): in any run in which no dispatch hits a collaborator
failure, every session history with no dispatch in flight holds at most 21
messages and keeps the system message at position 0; and whenever the bound
would be exceeded, the trim removes exactly the oldest user/assistant pair
(elements 1 and 2), keeping the head. -/
theorem history_bound_on_success_runs (evs : List Event)
    (hok : ∀ ev ∈ evs, evOk ev) (k : SessKey) (h : List Msg)
    (hget : assocGet (run initialRelayState evs).conversationHistory k =
      some h)
    (hnp : ¬pendingFor (run initialRelayState evs) k) :
    h.length ≤ 21 ∧ h.head? = some systemMsg ∧
      ∀ h' : List Msg, 21 < h'.length →
        trimHistory h' = h'.take 1 ++ h'.drop 3 := by
  obtain ⟨a, _, c⟩ :=
    histInv_run evs initialRelayState wf_initial histInv_initial hok k h hget
  exact ⟨c hnp, a, fun h' hgt => by simp [trimHistory, hgt]⟩

/-- C10 witness: after one successfully dispatched turn the stored history is
the system message plus the one user/assistant pair. -/
theorem history_bound_on_success_runs_witness :
    (∀ ev ∈ c10WitEvents, evOk ev) ∧
    assocGet (run initialRelayState c10WitEvents).conversationHistory
        (some "S") =
      some [systemMsg, ⟨"user", "hi"⟩, ⟨"assistant", "yo"⟩] ∧
    ¬pendingFor (run initialRelayState c10WitEvents) (some "S") ∧
    ([systemMsg, ⟨"user", "hi"⟩, ⟨"assistant", "yo"⟩] : List Msg).length ≤ 21 :=
  ⟨by intro ev hev; fin_cases hev <;> trivial, rfl,
    by
      rintro ⟨m', hm'⟩
      rw [show (run initialRelayState c10WitEvents).pendingDispatch = []
        from rfl] at hm'
      simp at hm',
    (history_bound_on_success_runs c10WitEvents
      (by intro ev hev; fin_cases hev <;> trivial) (some "S") _ rfl
      (by
        rintro ⟨m', hm'⟩
        rw [show (run initialRelayState c10WitEvents).pendingDispatch = []
          from rfl] at hm'
        simp at hm')).1⟩

end AIAnswering
